import Mathlib

/-!
Verification of the toru software rasterizer (ryanw/toru-rs).

Shallow embedding of the pipeline pieces referenced by the claims:
`f32` values are modelled as exact rationals (`ℚ`); the depth buffer's
`f32::INFINITY` sentinel is modelled as `⊤` in `WithTop ℚ`; fallible
operations (Rust panics, IEEE divisions by zero producing NaN/Inf) are
modelled with `Option`.
-/

namespace Toru

/-- `nalgebra` `Point3<f32>` / `Vector3<f32>`: a triple of coordinates. -/
structure Vec3 where
  x : ℚ
  y : ℚ
  z : ℚ
  deriving DecidableEq, Repr

/-- `nalgebra` `Vector4<f32>`: homogeneous clip-space coordinates. -/
structure Vec4 where
  x : ℚ
  y : ℚ
  z : ℚ
  w : ℚ
  deriving DecidableEq, Repr

/-- Dot product of two 3-vectors (`nalgebra` `dot`). -/
def dot3 (a b : Vec3) : ℚ :=
  a.x * b.x + a.y * b.y + a.z * b.z

/-- `nalgebra` `Vector3::lerp(self, rhs, t)`: componentwise
`self + (rhs - self) * t`. -/
def vlerp3 (a b : Vec3) (t : ℚ) : Vec3 :=
  ⟨a.x + (b.x - a.x) * t, a.y + (b.y - a.y) * t, a.z + (b.z - a.z) * t⟩

/-- `src/mesh/geom.rs` `Plane`: a clipping half-space given by a point and a
normal.  (`Plane::new` normalizes the normal; every plane constructed by the
clipper already has a unit normal, on which normalization is the identity, so
the planes below are written with their normals directly.) -/
structure Plane where
  point : Vec3
  normal : Vec3
  deriving DecidableEq, Repr

/-- `Plane::dot`: `normal.dot(point.coords)`. -/
def Plane.dot (p : Plane) : ℚ :=
  dot3 p.normal p.point

/-- `Plane::distance_to_point`: signed distance,
`normal.x*p.x + normal.y*p.y + normal.z*p.z - self.dot()`. -/
def Plane.distanceToPoint (pl : Plane) (p : Vec3) : ℚ :=
  pl.normal.x * p.x + pl.normal.y * p.y + pl.normal.z * p.z - pl.dot

/-- `src/mesh/geom.rs` `Line`: a segment from `start` to `end`. -/
structure Line where
  start : Vec3
  endp : Vec3
  deriving DecidableEq, Repr

/-- `Line::intersects_offset`: the intersection parameter
`(plane_dot - start_dot) / (end_dot - start_dot)`. -/
def Line.intersectsOffset (self : Line) (plane : Plane) : ℚ :=
  let planeDot := plane.dot
  let startDot := dot3 self.start plane.normal
  let endDot := dot3 self.endp plane.normal
  (planeDot - startDot) / (endDot - startDot)

/-- `Line::intersects_plane`: the intersection point
`start + (end - start) * t` together with the parameter `t`. -/
def Line.intersectsPlane (self : Line) (plane : Plane) : Vec3 × ℚ :=
  let t := self.intersectsOffset plane
  (⟨self.start.x + (self.endp.x - self.start.x) * t,
    self.start.y + (self.endp.y - self.start.y) * t,
    self.start.z + (self.endp.z - self.start.z) * t⟩, t)

/-- `src/mesh/geom.rs` `Triangle`: three points, three perspective UV
coordinates and a face normal (`points: [Point3; 3]`, `uvs: [Vector3; 3]`,
`normal`), with the arrays spelled out as numbered fields. -/
structure Triangle where
  point0 : Vec3
  point1 : Vec3
  point2 : Vec3
  uv0 : Vec3
  uv1 : Vec3
  uv2 : Vec3
  normal : Vec3
  deriving DecidableEq, Repr

/-- The `inside.len() == 1` branch of `Triangle::clip_to_plane`: one new
triangle whose base is chopped off.  `pin` is the single inside vertex (with
its uv), `pout0`/`pout1` the outside vertices in index order. -/
def clipOneInside (self : Triangle) (plane : Plane)
    (pin pout0 pout1 : Vec3 × Vec3) : List Triangle :=
  let r0 := Line.intersectsPlane ⟨pin.1, pout0.1⟩ plane
  let r1 := Line.intersectsPlane ⟨pin.1, pout1.1⟩ plane
  [{ self with
      point0 := pin.1, uv0 := pin.2,
      point1 := r0.1, uv1 := vlerp3 pin.2 pout0.2 r0.2,
      point2 := r1.1, uv2 := vlerp3 pin.2 pout1.2 r1.2 }]

/-- The `outside.len() == 1` branch of `Triangle::clip_to_plane`: the tip is
chopped off, yielding a quad split into two triangles.  `pin0`/`pin1` are the
inside vertices in index order, `pout` the single outside vertex. -/
def clipTwoInside (self : Triangle) (plane : Plane)
    (pin0 pin1 pout : Vec3 × Vec3) : List Triangle :=
  let r0 := Line.intersectsPlane ⟨pin0.1, pout.1⟩ plane
  let tri0 : Triangle :=
    { self with
        point0 := pin0.1, uv0 := pin0.2,
        point1 := pin1.1, uv1 := pin1.2,
        point2 := r0.1, uv2 := vlerp3 pin0.2 pout.2 r0.2 }
  let r1 := Line.intersectsPlane ⟨pin1.1, pout.1⟩ plane
  let tri1 : Triangle :=
    { self with
        point0 := tri0.point1, uv0 := tri0.uv1,
        point1 := tri0.point2, uv1 := tri0.uv2,
        point2 := r1.1, uv2 := vlerp3 pin1.2 pout.2 r1.2 }
  [tri0, tri1]

/-- `Triangle::clip_to_plane` (src/mesh/geom.rs).  The source pushes each
vertex whose signed distance is `>= 0` onto `inside` (otherwise `outside`) in
index order and then matches on the lengths of the two lists; here the same
dispatch is written as nested `if`s on the three sign tests, with the
inside/outside vertices passed in the source's push order. -/
def Triangle.clipToPlane (self : Triangle) (plane : Plane) : List Triangle :=
  let d0 := plane.distanceToPoint self.point0
  let d1 := plane.distanceToPoint self.point1
  let d2 := plane.distanceToPoint self.point2
  if 0 ≤ d0 then
    if 0 ≤ d1 then
      if 0 ≤ d2 then
        -- Triangle is entirely inside, keep untouched
        [self]
      else
        clipTwoInside self plane (self.point0, self.uv0) (self.point1, self.uv1)
          (self.point2, self.uv2)
    else
      if 0 ≤ d2 then
        clipTwoInside self plane (self.point0, self.uv0) (self.point2, self.uv2)
          (self.point1, self.uv1)
      else
        clipOneInside self plane (self.point0, self.uv0) (self.point1, self.uv1)
          (self.point2, self.uv2)
  else
    if 0 ≤ d1 then
      if 0 ≤ d2 then
        clipTwoInside self plane (self.point1, self.uv1) (self.point2, self.uv2)
          (self.point0, self.uv0)
      else
        clipOneInside self plane (self.point1, self.uv1) (self.point0, self.uv0)
          (self.point2, self.uv2)
    else
      if 0 ≤ d2 then
        clipOneInside self plane (self.point2, self.uv2) (self.point0, self.uv0)
          (self.point1, self.uv1)
      else
        -- Triangle is outside, so return nothing
        []

/-- The four clip planes of `DrawContext::clip_triangle_to_edges`
(left `x = -1`, right `x = 1`, bottom `y = -1`, top `y = 1`), in source
order. -/
def clipPlanes : List Plane :=
  [⟨⟨-1, 0, 0⟩, ⟨1, 0, 0⟩⟩,
   ⟨⟨1, 0, 0⟩, ⟨-1, 0, 0⟩⟩,
   ⟨⟨0, -1, 0⟩, ⟨0, 1, 0⟩⟩,
   ⟨⟨0, 1, 0⟩, ⟨0, -1, 0⟩⟩]

/-- One pass of the clipping loop: clip every working triangle against one
plane and collect the results (the `drain`/`append` inner loop). -/
def clipStep (tris : List Triangle) (plane : Plane) : List Triangle :=
  tris.flatMap (fun t => t.clipToPlane plane)

/-- `DrawContext::clip_triangle_to_edges`: successively clip the triangle
against the four frustum edge planes. -/
def clipTriangleToEdges (tri : Triangle) : List Triangle :=
  clipPlanes.foldl clipStep [tri]

/-- `src/buffer.rs` `Buffer<T>`: a row-major 2D pixel grid. -/
structure Buffer (T : Type) where
  width : ℕ
  height : ℕ
  data : List T
  deriving DecidableEq, Repr

/-- `Buffer::index`: `None` when `x < 0 || y < 0 || x >= width || y >= height`,
otherwise the row-major index `x + y * width`. -/
def Buffer.index {T : Type} (b : Buffer T) (x y : ℤ) : Option ℕ :=
  if x < 0 ∨ y < 0 ∨ (b.width : ℤ) ≤ x ∨ (b.height : ℤ) ≤ y then none
  else some (x.toNat + y.toNat * b.width)

/-- `Buffer::get`: look up the pixel at `(x, y)`, `None` out of bounds.
(The source indexes `self.data[idx]` directly; the `Option` result of the
list lookup models the panic on an undersized data vector.) -/
def Buffer.get {T : Type} (b : Buffer T) (x y : ℤ) : Option T :=
  (b.index x y).bind fun i => b.data[i]?

/-- A write through `Buffer::get_mut`: out-of-bounds coordinates leave the
buffer unchanged (the `if let Some(dst) = get_mut(x, y)` pattern). -/
def Buffer.set {T : Type} (b : Buffer T) (x y : ℤ) (v : T) : Buffer T :=
  match b.index x y with
  | none => b
  | some i => { b with data := b.data.set i v }

/-- `Buffer::fill`: `self.data = vec![pixel; width * height]`. -/
def Buffer.fill {T : Type} (b : Buffer T) (v : T) : Buffer T :=
  { b with data := List.replicate (b.width * b.height) v }

/-- `Buffer::resize`: reallocate as `w * h` copies of `T::default()`
(the default value is passed explicitly). -/
def Buffer.resize {T : Type} (_b : Buffer T) (w h : ℕ) (dflt : T) : Buffer T :=
  ⟨w, h, List.replicate (w * h) dflt⟩

/-- `Buffer::new_with_value`: `Buffer::default()` then `resize` then
`fill(value)`. -/
def Buffer.newWithValue {T : Type} (value dflt : T) (w h : ℕ) : Buffer T :=
  (Buffer.resize ⟨0, 0, []⟩ w h dflt).fill value

/-- Depth values: `f32` depths with the `f32::INFINITY` sentinel modelled as
`⊤` of `WithTop ℚ` (for every finite `z`, `INFINITY < z` is false, exactly as
for `⊤`). -/
abbrev DepthVal := WithTop ℚ

/-- The depth buffer built by `Canvas::new`:
`Buffer::new_with_value(std::f32::INFINITY, width, height)`
(the `f32` default used by `resize` is `0.0`). -/
def canvasNewDepth (w h : ℕ) : Buffer DepthVal :=
  Buffer.newWithValue ⊤ ((0 : ℚ) : DepthVal) w h

/-- The depth half of `DrawContext::clear`: `self.depth.fill(std::f32::INFINITY)`. -/
def depthClear (b : Buffer DepthVal) : Buffer DepthVal :=
  b.fill ⊤

/-- One depth-test update of the rasterizer's inner loop
(`if *d < z { continue; } *d = z;`): the stored depth that results from
offering a fragment at depth `z` to a cell holding `d`. -/
def depthStep (d : DepthVal) (z : ℚ) : DepthVal :=
  if d < (z : DepthVal) then d else (z : DepthVal)

/-- `src/color.rs` `Color`: 8-bit RGBA; channels are `u8` values modelled as
naturals below 256. -/
structure Color where
  r : ℕ
  g : ℕ
  b : ℕ
  a : ℕ
  deriving DecidableEq, Repr

/-- Rust's `f32 as u8` saturating cast for the blend/lerp results: negative
values clamp to 0, values above 255 clamp to 255, otherwise truncate toward
zero.  (Rust casts NaN to 0; the model's exact `0/0 = 0` agrees.) -/
def f32ToU8 (q : ℚ) : ℕ :=
  if q < 0 then 0 else if 255 < q then 255 else (⌊q⌋).toNat

/-- `Color::blend(self, bg)` (src/color.rs lines 112-126): convert both
colors to floats via `as_floats` (`channel / 255.0`), apply the over
composite, convert back with `* 255.0 as u8`. -/
def Color.blend (self bg : Color) : Color :=
  let fgR : ℚ := (self.r : ℚ) / 255
  let fgG : ℚ := (self.g : ℚ) / 255
  let fgB : ℚ := (self.b : ℚ) / 255
  let fgA : ℚ := (self.a : ℚ) / 255
  let bgR : ℚ := (bg.r : ℚ) / 255
  let bgG : ℚ := (bg.g : ℚ) / 255
  let bgB : ℚ := (bg.b : ℚ) / 255
  let bgA : ℚ := (bg.a : ℚ) / 255
  let a := (1 - fgA) * bgA + fgA
  let r := ((1 - fgA) * bgA * bgR + fgA * fgR) / a
  let g := ((1 - fgA) * bgA * bgG + fgA * fgG) / a
  let b := ((1 - fgA) * bgA * bgB + fgA * fgB) / a
  ⟨f32ToU8 (r * 255), f32ToU8 (g * 255), f32ToU8 (b * 255), f32ToU8 (a * 255)⟩

/-- Modelled from the spec: the standard "over" alpha composite the spec
states for `blend(self, background)`: `a' = (1-fg_a)*bg_a + fg_a` and
`c' = ((1-fg_a)*bg_a*bg_c + fg_a*fg_c)/a'` per channel, on normalized
channels, quantized back to `u8`. -/
def blendOverSpec (fg bg : Color) : Color :=
  let fgA : ℚ := (fg.a : ℚ) / 255
  let bgA : ℚ := (bg.a : ℚ) / 255
  let aOut := (1 - fgA) * bgA + fgA
  let chan (fgC bgC : ℕ) : ℚ :=
    ((1 - fgA) * bgA * ((bgC : ℚ) / 255) + fgA * ((fgC : ℚ) / 255)) / aOut
  ⟨f32ToU8 (chan fg.r bg.r * 255), f32ToU8 (chan fg.g bg.g * 255),
   f32ToU8 (chan fg.b bg.b * 255), f32ToU8 (aOut * 255)⟩

/-- The frame-buffer write of the scanline rasterizer's inner loop
(`rasterize_flat_bottom_triangle` lines 341-344, and identically in
`rasterize_flat_top_triangle`): `let color = shader.main(&p); *dst = color;`
— the value stored over the previous pixel `dst` is the shader output
itself. -/
def rasterWritePixel {O : Type} (_dst c : O) : O :=
  c

/-- `Color::lerp` (src/color.rs): clamp the blend amount into `(0, 1)` by
returning an endpoint, otherwise mix channels in `f32` and cast back. -/
def Color.lerp (self other : Color) (amount : ℚ) : Color :=
  if amount ≤ 0 then self
  else if 1 ≤ amount then other
  else
    let inv := 1 - amount
    ⟨f32ToU8 ((self.r : ℚ) * inv + (other.r : ℚ) * amount),
     f32ToU8 ((self.g : ℚ) * inv + (other.g : ℚ) * amount),
     f32ToU8 ((self.b : ℚ) * inv + (other.b : ℚ) * amount),
     f32ToU8 ((self.a : ℚ) * inv + (other.a : ℚ) * amount)⟩

/-- `nalgebra` `Vector4::lerp(self, rhs, t)` componentwise. -/
def vlerp4 (a b : Vec4) (t : ℚ) : Vec4 :=
  ⟨a.x + (b.x - a.x) * t, a.y + (b.y - a.y) * t,
   a.z + (b.z - a.z) * t, a.w + (b.w - a.w) * t⟩

/-- Componentwise difference of two 4-vectors. -/
def Vec4.sub (a b : Vec4) : Vec4 :=
  ⟨a.x - b.x, a.y - b.y, a.z - b.z, a.w - b.w⟩

/-- Componentwise sum of two 4-vectors. -/
def Vec4.add (a b : Vec4) : Vec4 :=
  ⟨a.x + b.x, a.y + b.y, a.z + b.z, a.w + b.w⟩

/-- `examples/mouse/shaders.rs` `MouseVaryings`: a homogeneous position plus
a brightness attribute. -/
structure MouseVaryings where
  position : Vec4
  brightness : ℚ
  deriving DecidableEq, Repr

/-- `MouseVaryings::lerp`: `position.lerp(rhs.position, t)` and
`brightness + t * (rhs.brightness - brightness)`. -/
def MouseVaryings.lerp (self rhs : MouseVaryings) (t : ℚ) : MouseVaryings :=
  ⟨vlerp4 self.position rhs.position t,
   self.brightness + t * (rhs.brightness - self.brightness)⟩

/-- `MouseVaryings::lerp_step`: the same interpolants with `self` subtracted
from each component. -/
def MouseVaryings.lerpStep (self rhs : MouseVaryings) (t : ℚ) : MouseVaryings :=
  let position := vlerp4 self.position rhs.position t
  let brightness := self.brightness + t * (rhs.brightness - self.brightness)
  ⟨Vec4.sub position self.position, brightness - self.brightness⟩

/-- `MouseVaryings::add_step`: in-place accumulation `self += step`. -/
def MouseVaryings.addStep (self step : MouseVaryings) : MouseVaryings :=
  ⟨Vec4.add self.position step.position, self.brightness + step.brightness⟩

/-- Componentwise difference of two varyings bundles (used to state
`lerp_step = lerp - self`). -/
def MouseVaryings.sub (a b : MouseVaryings) : MouseVaryings :=
  ⟨Vec4.sub a.position b.position, a.brightness - b.brightness⟩

/-- The z component of the winding cross product
`(p1 - p0).cross(&(p2 - p0))` computed by `DrawContext::draw_triangles`. -/
def windingZ (p0 p1 p2 : Vec4) : ℚ :=
  (p1.x - p0.x) * (p2.y - p0.y) - (p1.y - p0.y) * (p2.x - p0.x)

/-- The backface test of `draw_triangles`: `winding.z > 0.0` culls the
triangle (it is skipped and never rasterized). -/
def backfaceCulled (p0 p1 p2 : Vec4) : Prop :=
  0 < windingZ p0 p1 p2

instance (p0 p1 p2 : Vec4) : Decidable (backfaceCulled p0 p1 p2) := by
  unfold backfaceCulled; infer_instance

/-- `Varyings::divide_perspective` (src/shader.rs lines 9-12):
`let w = self.position().w; self.position_mut().unscale_mut(w);` — every
component is divided by `w` with no guard of any kind.  `none` models the
`f32` division by `w = 0`, which produces NaN/Inf. -/
def dividePerspective (v : Vec4) : Option Vec4 :=
  if v.w = 0 then none
  else some ⟨v.x / v.w, v.y / v.w, v.z / v.w, v.w / v.w⟩

/-- `src/texture.rs` `TextureWrap`. -/
inductive TextureWrap where
  | Clamp
  | Repeat
  deriving DecidableEq, Repr

/-- `src/texture.rs` `TextureFilter`. -/
inductive TextureFilter where
  | Nearest
  | Bilinear
  deriving DecidableEq, Repr

/-- `src/texture.rs` `Texture` over the RGBA `Color` pixel type. -/
structure Texture where
  buffer : Buffer Color
  wrap : TextureWrap
  filter : TextureFilter
  emissive : Bool
  deriving DecidableEq, Repr

/-- `Texture::get_pixel`: wrap the integer coordinates per the wrap policy
and look the pixel up (`self.buffer.get(x, y).unwrap()`).  `none` models the
two panics the source can hit: `rem_euclid` with a zero divisor
(`width - 1 = 0` or `height - 1 = 0` under `Repeat`) and the `unwrap` of an
out-of-range lookup. -/
def Texture.getPixel (t : Texture) (x y : ℤ) : Option Color :=
  match t.wrap with
  | .Clamp =>
    let x1 := if (t.buffer.width : ℤ) ≤ x then (t.buffer.width : ℤ) - 1 else x
    let y1 := if (t.buffer.height : ℤ) ≤ y then (t.buffer.height : ℤ) - 1 else y
    let x2 := if x1 < 0 then 0 else x1
    let y2 := if y1 < 0 then 0 else y1
    t.buffer.get x2 y2
  | .Repeat =>
    if (t.buffer.width : ℤ) - 1 = 0 ∨ (t.buffer.height : ℤ) - 1 = 0 then none
    else t.buffer.get (x % ((t.buffer.width : ℤ) - 1))
      (y % ((t.buffer.height : ℤ) - 1))

/-- Rust `f32::trunc` on exact rationals (round toward zero). -/
def ratTrunc (q : ℚ) : ℤ :=
  if 0 ≤ q then ⌊q⌋ else ⌈q⌉

/-- Rust `f32::fract`: `self - self.trunc()`. -/
def ratFract (q : ℚ) : ℚ :=
  q - (ratTrunc q : ℚ)

/-- `Texture::get_normalized_pixel`: scale `(x, y)` by `(width-1, height-1)`,
floor to texel coordinates and sample (with a 4-tap lerp under `Bilinear`);
any panicking `get_pixel` propagates as `none`. -/
def Texture.getNormalizedPixel (t : Texture) (x y : ℚ) : Option Color :=
  let xf := x * (((t.buffer.width : ℤ) - 1 : ℤ) : ℚ)
  let yf := y * (((t.buffer.height : ℤ) - 1 : ℤ) : ℚ)
  let xi := ⌊xf⌋
  let yi := ⌊yf⌋
  match t.filter with
  | .Nearest => t.getPixel xi yi
  | .Bilinear =>
    match t.getPixel xi yi, t.getPixel (xi + 1) yi,
        t.getPixel xi (yi + 1), t.getPixel (xi + 1) (yi + 1) with
    | some tl, some tr, some bl, some br =>
      let xn := ratFract xf
      let yn := ratFract yf
      let top := tl.lerp tr xn
      let bot := bl.lerp br xn
      some (top.lerp bot yn)
    | _, _, _, _ => none

/-- The per-pixel body of `rasterize_flat_bottom_triangle` (lines 334-344)
acting on one in-bounds cell: stored depth `d`, stored pixel `dst`, incoming
fragment depth `z`, shader output `c`.  `if *d < z { continue; }` skips both
writes; otherwise the depth and the pixel are both overwritten. -/
def flatBottomPixelStep {O : Type} (d : DepthVal) (dst : O) (z : ℚ) (c : O) :
    DepthVal × O :=
  if d < (z : DepthVal) then (d, dst) else ((z : DepthVal), c)

/-- The per-pixel body of `rasterize_flat_top_triangle` (lines 391-401),
textually identical to the flat-bottom one. -/
def flatTopPixelStep {O : Type} (d : DepthVal) (dst : O) (z : ℚ) (c : O) :
    DepthVal × O :=
  if d < (z : DepthVal) then (d, dst) else ((z : DepthVal), c)

/-- The per-pixel body of `DrawContext::draw_hline` (lines 899-909): the same
depth test, then `*dst = color.clone()`. -/
def hlinePixelStep {O : Type} (d : DepthVal) (dst : O) (z : ℚ) (c : O) :
    DepthVal × O :=
  if d < (z : DepthVal) then (d, dst) else ((z : DepthVal), c)

/-- All three vertices of a triangle are strictly outside a plane. -/
def allVertNeg (pl : Plane) (t : Triangle) : Prop :=
  pl.distanceToPoint t.point0 < 0 ∧ pl.distanceToPoint t.point1 < 0 ∧
    pl.distanceToPoint t.point2 < 0

lemma rowMajorLt {x y w h : ℕ} (hx : x < w) (hy : y < h) :
    x + y * w < w * h := by
  calc x + y * w < w + y * w := by omega
    _ = (y + 1) * w := by ring
    _ ≤ h * w := mul_le_mul_right' (Nat.succ_le_of_lt hy) w
    _ = w * h := Nat.mul_comm h w

lemma buffer_get_some_of_bounds {T : Type} (b : Buffer T)
    (hlen : b.data.length = b.width * b.height) {x y : ℤ}
    (hx0 : 0 ≤ x) (hx : x < (b.width : ℤ)) (hy0 : 0 ≤ y) (hy : y < (b.height : ℤ)) :
    (b.get x y).isSome := by
  have hidx : b.index x y = some (x.toNat + y.toNat * b.width) := by
    unfold Buffer.index
    rw [if_neg]
    push_neg
    exact ⟨hx0, hy0, hx, hy⟩
  have hxw : x.toNat < b.width := by omega
  have hyh : y.toNat < b.height := by omega
  have hlt : x.toNat + y.toNat * b.width < b.data.length := by
    rw [hlen]; exact rowMajorLt hxw hyh
  unfold Buffer.get
  rw [hidx]
  simp [List.getElem?_eq_getElem hlt]

lemma buffer_get_fill {T : Type} (b : Buffer T) (v : T) {x y : ℤ}
    (hx0 : 0 ≤ x) (hx : x < (b.width : ℤ)) (hy0 : 0 ≤ y) (hy : y < (b.height : ℤ)) :
    (b.fill v).get x y = some v := by
  have hidx : (b.fill v).index x y = some (x.toNat + y.toNat * b.width) := by
    unfold Buffer.index Buffer.fill
    rw [if_neg]
    push_neg
    exact ⟨hx0, hy0, hx, hy⟩
  have hxw : x.toNat < b.width := by omega
  have hyh : y.toNat < b.height := by omega
  unfold Buffer.get
  rw [hidx]
  simp [Buffer.fill, List.getElem?_replicate, rowMajorLt hxw hyh]

lemma flatMap_nil_of_forall {α β : Type} (l : List α) (f : α → List β)
    (h : ∀ a ∈ l, f a = []) : l.flatMap f = [] := by
  induction l with
  | nil => rfl
  | cons a l ih =>
    rw [List.flatMap_cons, h a (List.mem_cons_self a l), List.nil_append]
    exact ih fun a ha => h a (List.mem_cons_of_mem _ ha)

lemma convNeg {t a b : ℚ} (ht0 : 0 ≤ t) (ht1 : t ≤ 1) (ha : a < 0) (hb : b < 0) :
    (1 - t) * a + t * b < 0 := by
  rcases eq_or_lt_of_le ht0 with h | h
  · rw [← h]; norm_num; exact ha
  · nlinarith [mul_neg_of_pos_of_neg h hb,
      mul_nonneg (by linarith : (0 : ℚ) ≤ 1 - t) (by linarith : (0 : ℚ) ≤ -a)]

lemma distance_lerp (pk : Plane) (p q : Vec3) (t : ℚ) :
    pk.distanceToPoint
        ⟨p.x + (q.x - p.x) * t, p.y + (q.y - p.y) * t, p.z + (q.z - p.z) * t⟩ =
      (1 - t) * pk.distanceToPoint p + t * pk.distanceToPoint q := by
  unfold Plane.distanceToPoint Plane.dot dot3
  ring

lemma offset_mem_unit (pj : Plane) (p q : Vec3)
    (hp : 0 ≤ pj.distanceToPoint p) (hq : pj.distanceToPoint q < 0) :
    0 ≤ Line.intersectsOffset ⟨p, q⟩ pj ∧ Line.intersectsOffset ⟨p, q⟩ pj ≤ 1 := by
  have h1 : pj.dot - dot3 p pj.normal = -(pj.distanceToPoint p) := by
    unfold Plane.distanceToPoint dot3; ring
  have h2 : dot3 q pj.normal - dot3 p pj.normal =
      -(pj.distanceToPoint p - pj.distanceToPoint q) := by
    unfold Plane.distanceToPoint dot3; ring
  have ht : Line.intersectsOffset ⟨p, q⟩ pj =
      pj.distanceToPoint p / (pj.distanceToPoint p - pj.distanceToPoint q) := by
    show (pj.dot - dot3 p pj.normal) / (dot3 q pj.normal - dot3 p pj.normal) = _
    rw [h1, h2, neg_div_neg_eq]
  have hd : 0 < pj.distanceToPoint p - pj.distanceToPoint q := by linarith
  constructor
  · rw [ht]; exact div_nonneg hp hd.le
  · rw [ht]; exact (div_le_one hd).mpr (by linarith)

lemma dist_intersect_lt (pk pj : Plane) (p q : Vec3)
    (hkp : pk.distanceToPoint p < 0) (hkq : pk.distanceToPoint q < 0)
    (hjp : 0 ≤ pj.distanceToPoint p) (hjq : pj.distanceToPoint q < 0) :
    pk.distanceToPoint (Line.intersectsPlane ⟨p, q⟩ pj).1 < 0 := by
  obtain ⟨ht0, ht1⟩ := offset_mem_unit pj p q hjp hjq
  show pk.distanceToPoint
      ⟨p.x + (q.x - p.x) * Line.intersectsOffset ⟨p, q⟩ pj,
       p.y + (q.y - p.y) * Line.intersectsOffset ⟨p, q⟩ pj,
       p.z + (q.z - p.z) * Line.intersectsOffset ⟨p, q⟩ pj⟩ < 0
  rw [distance_lerp]
  exact convNeg ht0 ht1 hkp hkq

lemma clip_all_inside (pl : Plane) (t : Triangle)
    (h0 : 0 ≤ pl.distanceToPoint t.point0) (h1 : 0 ≤ pl.distanceToPoint t.point1)
    (h2 : 0 ≤ pl.distanceToPoint t.point2) : t.clipToPlane pl = [t] := by
  simp [Triangle.clipToPlane, h0, h1, h2]

lemma clip_all_outside (pl : Plane) (t : Triangle) (h : allVertNeg pl t) :
    t.clipToPlane pl = [] := by
  obtain ⟨h0, h1, h2⟩ := h
  simp [Triangle.clipToPlane, not_le.mpr h0, not_le.mpr h1, not_le.mpr h2]

lemma oneInside_pres (pk pj : Plane) (self : Triangle) (pin pout0 pout1 : Vec3 × Vec3)
    (hk0 : pk.distanceToPoint pin.1 < 0) (hk1 : pk.distanceToPoint pout0.1 < 0)
    (hk2 : pk.distanceToPoint pout1.1 < 0)
    (hj0 : 0 ≤ pj.distanceToPoint pin.1) (hj1 : pj.distanceToPoint pout0.1 < 0)
    (hj2 : pj.distanceToPoint pout1.1 < 0) :
    ∀ u ∈ clipOneInside self pj pin pout0 pout1, allVertNeg pk u := by
  intro u hu
  simp only [clipOneInside, List.mem_singleton] at hu
  subst hu
  refine ⟨hk0, ?_, ?_⟩
  · exact dist_intersect_lt pk pj pin.1 pout0.1 hk0 hk1 hj0 hj1
  · exact dist_intersect_lt pk pj pin.1 pout1.1 hk0 hk2 hj0 hj2

lemma twoInside_pres (pk pj : Plane) (self : Triangle) (pin0 pin1 pout : Vec3 × Vec3)
    (hk0 : pk.distanceToPoint pin0.1 < 0) (hk1 : pk.distanceToPoint pin1.1 < 0)
    (hk2 : pk.distanceToPoint pout.1 < 0)
    (hj0 : 0 ≤ pj.distanceToPoint pin0.1) (hj1 : 0 ≤ pj.distanceToPoint pin1.1)
    (hj2 : pj.distanceToPoint pout.1 < 0) :
    ∀ u ∈ clipTwoInside self pj pin0 pin1 pout, allVertNeg pk u := by
  intro u hu
  simp only [clipTwoInside, List.mem_cons, List.not_mem_nil, or_false] at hu
  have hq0 : pk.distanceToPoint (Line.intersectsPlane ⟨pin0.1, pout.1⟩ pj).1 < 0 :=
    dist_intersect_lt pk pj pin0.1 pout.1 hk0 hk2 hj0 hj2
  have hq1 : pk.distanceToPoint (Line.intersectsPlane ⟨pin1.1, pout.1⟩ pj).1 < 0 :=
    dist_intersect_lt pk pj pin1.1 pout.1 hk1 hk2 hj1 hj2
  rcases hu with hu | hu <;> subst hu
  · exact ⟨hk0, hk1, hq0⟩
  · exact ⟨hk1, hq0, hq1⟩

lemma clip_pres (pk pj : Plane) (t : Triangle) (h : allVertNeg pk t) :
    ∀ u ∈ t.clipToPlane pj, allVertNeg pk u := by
  obtain ⟨hk0, hk1, hk2⟩ := h
  intro u hu
  by_cases h0 : 0 ≤ pj.distanceToPoint t.point0 <;>
    by_cases h1 : 0 ≤ pj.distanceToPoint t.point1 <;>
    by_cases h2 : 0 ≤ pj.distanceToPoint t.point2 <;>
    simp only [Triangle.clipToPlane, h0, h1, h2, if_true, if_false,
      List.mem_singleton, List.not_mem_nil] at hu
  · subst hu; exact ⟨hk0, hk1, hk2⟩
  · exact twoInside_pres pk pj t (t.point0, t.uv0) (t.point1, t.uv1) (t.point2, t.uv2)
      hk0 hk1 hk2 h0 h1 (not_le.mp h2) u hu
  · exact twoInside_pres pk pj t (t.point0, t.uv0) (t.point2, t.uv2) (t.point1, t.uv1)
      hk0 hk2 hk1 h0 h2 (not_le.mp h1) u hu
  · exact oneInside_pres pk pj t (t.point0, t.uv0) (t.point1, t.uv1) (t.point2, t.uv2)
      hk0 hk1 hk2 h0 (not_le.mp h1) (not_le.mp h2) u hu
  · exact twoInside_pres pk pj t (t.point1, t.uv1) (t.point2, t.uv2) (t.point0, t.uv0)
      hk1 hk2 hk0 h1 h2 (not_le.mp h0) u hu
  · exact oneInside_pres pk pj t (t.point1, t.uv1) (t.point0, t.uv0) (t.point2, t.uv2)
      hk1 hk0 hk2 h1 (not_le.mp h0) (not_le.mp h2) u hu
  · exact oneInside_pres pk pj t (t.point2, t.uv2) (t.point0, t.uv0) (t.point1, t.uv1)
      hk2 hk0 hk1 h2 (not_le.mp h0) (not_le.mp h1) u hu

lemma foldl_clipStep_nil (planes : List Plane) : planes.foldl clipStep [] = [] := by
  induction planes with
  | nil => rfl
  | cons p ps ih =>
    rw [List.foldl_cons]
    have : clipStep [] p = [] := rfl
    rw [this]
    exact ih

lemma foldl_clipStep_cull (pk : Plane) :
    ∀ (planes : List Plane) (acc : List Triangle), pk ∈ planes →
      (∀ t ∈ acc, allVertNeg pk t) → planes.foldl clipStep acc = [] := by
  intro planes
  induction planes with
  | nil => intro acc h; exact absurd h (List.not_mem_nil pk)
  | cons pj ps ih =>
    intro acc hmem hacc
    rw [List.foldl_cons]
    rcases List.mem_cons.mp hmem with heq | hmem2
    · subst heq
      have hnil : clipStep acc pk = [] :=
        flatMap_nil_of_forall acc _ fun t ht => clip_all_outside pk t (hacc t ht)
      rw [hnil]
      exact foldl_clipStep_nil ps
    · refine ih (clipStep acc pj) hmem2 ?_
      intro u hu
      rw [clipStep, List.mem_flatMap] at hu
      obtain ⟨t, ht, htc⟩ := hu
      exact clip_pres pk pj t (hacc t ht) u htc

/-- C1: for every input triangle all three of whose vertices lie on the
inside (signed distance ≥ 0) of every one of the four clip planes `x = -1`,
`x = 1`, `y = -1`, `y = 1`, the clipper (`clip_triangle_to_edges` /
per-plane `clip_to_plane`) returns exactly one triangle whose three vertices
are identical to the input triangle's vertices (here: exactly equal, the
untouched clone of the input). -/
theorem c1_clip_fully_inside_identity (tri : Triangle)
    (h : ∀ pl ∈ clipPlanes, 0 ≤ pl.distanceToPoint tri.point0 ∧
      0 ≤ pl.distanceToPoint tri.point1 ∧ 0 ≤ pl.distanceToPoint tri.point2) :
    clipTriangleToEdges tri = [tri] := by
  have k : ∀ pl ∈ clipPlanes, tri.clipToPlane pl = [tri] := fun pl hpl =>
    clip_all_inside pl tri (h pl hpl).1 (h pl hpl).2.1 (h pl hpl).2.2
  have s : ∀ pl ∈ clipPlanes, clipStep [tri] pl = [tri] := by
    intro pl hpl
    simp [clipStep, k pl hpl]
  have m0 : (⟨⟨-1, 0, 0⟩, ⟨1, 0, 0⟩⟩ : Plane) ∈ clipPlanes := by simp [clipPlanes]
  have m1 : (⟨⟨1, 0, 0⟩, ⟨-1, 0, 0⟩⟩ : Plane) ∈ clipPlanes := by simp [clipPlanes]
  have m2 : (⟨⟨0, -1, 0⟩, ⟨0, 1, 0⟩⟩ : Plane) ∈ clipPlanes := by simp [clipPlanes]
  have m3 : (⟨⟨0, 1, 0⟩, ⟨0, -1, 0⟩⟩ : Plane) ∈ clipPlanes := by simp [clipPlanes]
  show List.foldl clipStep [tri] clipPlanes = [tri]
  rw [show clipPlanes = [⟨⟨-1, 0, 0⟩, ⟨1, 0, 0⟩⟩, ⟨⟨1, 0, 0⟩, ⟨-1, 0, 0⟩⟩,
    ⟨⟨0, -1, 0⟩, ⟨0, 1, 0⟩⟩, ⟨⟨0, 1, 0⟩, ⟨0, -1, 0⟩⟩] from rfl]
  rw [List.foldl_cons, s _ m0, List.foldl_cons, s _ m1, List.foldl_cons, s _ m2,
    List.foldl_cons, s _ m3, List.foldl_nil]

/-- Witness for C1: a concrete triangle inside all four edge planes is
returned unchanged as the single clipping output. -/
theorem c1_witness :
    (∀ pl ∈ clipPlanes,
      0 ≤ pl.distanceToPoint (⟨⟨0, 0, 0⟩, ⟨1/2, 0, 0⟩, ⟨0, 1/2, 0⟩, ⟨0, 0, 1⟩,
          ⟨0, 0, 1⟩, ⟨0, 0, 1⟩, ⟨0, 0, 1⟩⟩ : Triangle).point0 ∧
      0 ≤ pl.distanceToPoint (⟨⟨0, 0, 0⟩, ⟨1/2, 0, 0⟩, ⟨0, 1/2, 0⟩, ⟨0, 0, 1⟩,
          ⟨0, 0, 1⟩, ⟨0, 0, 1⟩, ⟨0, 0, 1⟩⟩ : Triangle).point1 ∧
      0 ≤ pl.distanceToPoint (⟨⟨0, 0, 0⟩, ⟨1/2, 0, 0⟩, ⟨0, 1/2, 0⟩, ⟨0, 0, 1⟩,
          ⟨0, 0, 1⟩, ⟨0, 0, 1⟩, ⟨0, 0, 1⟩⟩ : Triangle).point2) ∧
    clipTriangleToEdges (⟨⟨0, 0, 0⟩, ⟨1/2, 0, 0⟩, ⟨0, 1/2, 0⟩, ⟨0, 0, 1⟩,
        ⟨0, 0, 1⟩, ⟨0, 0, 1⟩, ⟨0, 0, 1⟩⟩ : Triangle) =
      [⟨⟨0, 0, 0⟩, ⟨1/2, 0, 0⟩, ⟨0, 1/2, 0⟩, ⟨0, 0, 1⟩, ⟨0, 0, 1⟩, ⟨0, 0, 1⟩,
        ⟨0, 0, 1⟩⟩] := by
  have h : ∀ pl ∈ clipPlanes,
      0 ≤ pl.distanceToPoint (⟨⟨0, 0, 0⟩, ⟨1/2, 0, 0⟩, ⟨0, 1/2, 0⟩, ⟨0, 0, 1⟩,
          ⟨0, 0, 1⟩, ⟨0, 0, 1⟩, ⟨0, 0, 1⟩⟩ : Triangle).point0 ∧
      0 ≤ pl.distanceToPoint (⟨⟨0, 0, 0⟩, ⟨1/2, 0, 0⟩, ⟨0, 1/2, 0⟩, ⟨0, 0, 1⟩,
          ⟨0, 0, 1⟩, ⟨0, 0, 1⟩, ⟨0, 0, 1⟩⟩ : Triangle).point1 ∧
      0 ≤ pl.distanceToPoint (⟨⟨0, 0, 0⟩, ⟨1/2, 0, 0⟩, ⟨0, 1/2, 0⟩, ⟨0, 0, 1⟩,
          ⟨0, 0, 1⟩, ⟨0, 0, 1⟩, ⟨0, 0, 1⟩⟩ : Triangle).point2 := by
    intro pl hpl
    simp only [clipPlanes, List.mem_cons, List.not_mem_nil, or_false] at hpl
    rcases hpl with h | h | h | h <;> subst h <;>
      norm_num [Plane.distanceToPoint, Plane.dot, dot3]
  exact ⟨h, c1_clip_fully_inside_identity _ h⟩

/-- C2: for every input triangle all three of whose vertices lie strictly
outside (signed distance < 0) of one of the four clip planes, clipping
against that plane returns the empty list of triangles, and the full clipper
`clip_triangle_to_edges` returns zero primitives. -/
theorem c2_clip_fully_outside_culled (tri : Triangle) (pl : Plane)
    (hmem : pl ∈ clipPlanes)
    (h0 : pl.distanceToPoint tri.point0 < 0) (h1 : pl.distanceToPoint tri.point1 < 0)
    (h2 : pl.distanceToPoint tri.point2 < 0) :
    tri.clipToPlane pl = [] ∧ clipTriangleToEdges tri = [] := by
  refine ⟨clip_all_outside pl tri ⟨h0, h1, h2⟩, ?_⟩
  unfold clipTriangleToEdges
  refine foldl_clipStep_cull pl clipPlanes [tri] hmem ?_
  intro t ht
  rw [List.mem_singleton] at ht
  subst ht
  exact ⟨h0, h1, h2⟩

/-- Witness for C2: a concrete triangle entirely left of the `x = -1` plane
is culled by that plane and by the whole clipper. -/
theorem c2_witness :
    (⟨⟨-1, 0, 0⟩, ⟨1, 0, 0⟩⟩ : Plane) ∈ clipPlanes ∧
    (⟨⟨-1, 0, 0⟩, ⟨1, 0, 0⟩⟩ : Plane).distanceToPoint ⟨-2, 0, 0⟩ < 0 ∧
    ((⟨⟨-2, 0, 0⟩, ⟨-3, 0, 0⟩, ⟨-2, 1, 0⟩, ⟨0, 0, 1⟩, ⟨0, 0, 1⟩, ⟨0, 0, 1⟩,
        ⟨0, 0, 1⟩⟩ : Triangle).clipToPlane ⟨⟨-1, 0, 0⟩, ⟨1, 0, 0⟩⟩ = [] ∧
      clipTriangleToEdges (⟨⟨-2, 0, 0⟩, ⟨-3, 0, 0⟩, ⟨-2, 1, 0⟩, ⟨0, 0, 1⟩,
        ⟨0, 0, 1⟩, ⟨0, 0, 1⟩, ⟨0, 0, 1⟩⟩ : Triangle) = []) := by
  refine ⟨by simp [clipPlanes], by norm_num [Plane.distanceToPoint, Plane.dot, dot3], ?_⟩
  exact c2_clip_fully_outside_culled _ _ (by simp [clipPlanes])
    (by norm_num [Plane.distanceToPoint, Plane.dot, dot3])
    (by norm_num [Plane.distanceToPoint, Plane.dot, dot3])
    (by norm_num [Plane.distanceToPoint, Plane.dot, dot3])

/-- C3: the depth buffer is created (`Canvas::new`) and cleared
(`DrawContext::clear`) to `+infinity` (`⊤`); a stored depth value changes
only when the incoming fragment's depth is strictly nearer (smaller `z`, per
the code's `if *d < z { skip }` convention — at equal depth the cell is
rewritten with the same value); hence one depth-test update never increases
the stored value and every stored depth is non-increasing over any sequence
of fragment writes. -/
theorem c3_depth_init_and_monotone :
    (∀ (w h : ℕ) (x y : ℤ), 0 ≤ x → x < (w : ℤ) → 0 ≤ y → y < (h : ℤ) →
      (canvasNewDepth w h).get x y = some ⊤) ∧
    (∀ (b : Buffer DepthVal) (x y : ℤ), 0 ≤ x → x < (b.width : ℤ) → 0 ≤ y →
      y < (b.height : ℤ) → (depthClear b).get x y = some ⊤) ∧
    (∀ (d : DepthVal) (z : ℚ), depthStep d z ≤ d) ∧
    (∀ (d : DepthVal) (z : ℚ), depthStep d z ≠ d → (z : DepthVal) < d) ∧
    (∀ (zs : List ℚ) (d : DepthVal), zs.foldl depthStep d ≤ d) := by
  have hle : ∀ (d : DepthVal) (z : ℚ), depthStep d z ≤ d := by
    intro d z
    unfold depthStep
    split
    · exact le_refl d
    · exact le_of_not_lt (by assumption)
  refine ⟨?_, ?_, hle, ?_, ?_⟩
  · intro w h x y hx0 hx hy0 hy
    exact buffer_get_fill _ ⊤ hx0 hx hy0 hy
  · intro b x y hx0 hx hy0 hy
    exact buffer_get_fill _ ⊤ hx0 hx hy0 hy
  · intro d z hne
    unfold depthStep at hne
    by_cases hc : d < (z : DepthVal)
    · rw [if_pos hc] at hne
      exact absurd rfl hne
    · rw [if_neg hc] at hne
      exact lt_of_le_of_ne (not_lt.mp hc) hne
  · intro zs
    induction zs with
    | nil => intro d; exact le_refl d
    | cons z zs ih =>
      intro d
      rw [List.foldl_cons]
      exact le_trans (ih (depthStep d z)) (hle d z)

/-- Witness for C3: concrete instances of each conjunct — a fresh 2×2 depth
buffer holds `⊤`, clearing a 1×1 buffer holding 5 restores `⊤`, and the
depth-test update at stored 5 with incoming 3 decreases the cell. -/
theorem c3_witness :
    (canvasNewDepth 2 2).get 1 0 = some ⊤ ∧
    (depthClear ⟨1, 1, [((5 : ℚ) : DepthVal)]⟩).get 0 0 = some ⊤ ∧
    depthStep ((5 : ℚ) : DepthVal) 3 ≤ ((5 : ℚ) : DepthVal) ∧
    ((3 : ℚ) : DepthVal) < ((5 : ℚ) : DepthVal) ∧
    [(3 : ℚ), 7].foldl depthStep ((5 : ℚ) : DepthVal) ≤ ((5 : ℚ) : DepthVal) := by
  refine ⟨c3_depth_init_and_monotone.1 2 2 1 0 (by norm_num) (by norm_num)
      (by norm_num) (by norm_num),
    c3_depth_init_and_monotone.2.1 ⟨1, 1, [((5 : ℚ) : DepthVal)]⟩ 0 0 (by norm_num)
      (by norm_num) (by norm_num) (by norm_num),
    c3_depth_init_and_monotone.2.2.1 ((5 : ℚ) : DepthVal) 3,
    c3_depth_init_and_monotone.2.2.2.1 ((5 : ℚ) : DepthVal) 3 ?_,
    c3_depth_init_and_monotone.2.2.2.2 [3, 7] ((5 : ℚ) : DepthVal)⟩
  have h53 : ¬ ((5 : ℚ) : DepthVal) < ((3 : ℚ) : DepthVal) := by
    rw [not_lt, WithTop.coe_le_coe]
    norm_num
  unfold depthStep
  rw [if_neg h53, Ne, WithTop.coe_eq_coe]
  norm_num

/-- C4 counterexample: at a semi-transparent red fragment over a white
background, the scanline rasterizer's frame-buffer write (`*dst = color`)
stores the raw shader output, which differs from the blend of that output
with the existing pixel — so the claim that every depth-passing fragment is
written blended via the output type's blend rule is false. -/
theorem c4_counterexample :
    rasterWritePixel (Color.mk 255 255 255 255) (Color.mk 255 0 0 128) ≠
      Color.blend (Color.mk 255 0 0 128) (Color.mk 255 255 255 255) := by
  intro h
  simp only [rasterWritePixel, Color.blend, f32ToU8, Color.mk.injEq] at h
  norm_num at h
  omega

/-- C4 (amended): for every pixel that passes the depth test the scanline
rasterizer writes the fragment shader's output directly over the existing
frame-buffer value (no blend call); the RGBA `Color::blend` rule itself does
compute the standard "over" alpha composite the spec states. -/
theorem c4_raster_write_unblended :
    (∀ (O : Type) (dst c : O), rasterWritePixel dst c = c) ∧
    (∀ fg bg : Color, Color.blend fg bg = blendOverSpec fg bg) :=
  ⟨fun _ _ _ => rfl, fun _ _ => rfl⟩

/-- C5: for every pair of `MouseVaryings` and every `t ∈ [0, 1]`,
`lerp_step(b, t)` equals `lerp(b, t) - self` componentwise (position
included), and accumulating it in place with `add_step` yields exactly
`lerp(b, t)` (exact equality in the rational model). -/
theorem c5_lerp_step_linearity (a b : MouseVaryings) (t : ℚ)
    (_ht0 : 0 ≤ t) (_ht1 : t ≤ 1) :
    a.lerpStep b t = (a.lerp b t).sub a ∧
    a.addStep (a.lerpStep b t) = a.lerp b t := by
  constructor
  · rfl
  · simp only [MouseVaryings.lerpStep, MouseVaryings.lerp, MouseVaryings.addStep,
      vlerp4, Vec4.sub, Vec4.add, MouseVaryings.mk.injEq, Vec4.mk.injEq]
    refine ⟨⟨?_, ?_, ?_, ?_⟩, ?_⟩ <;> ring

/-- Witness for C5 at `t = 1/2` on concrete varyings. -/
theorem c5_witness :
    (0 : ℚ) ≤ 1/2 ∧ (1/2 : ℚ) ≤ 1 ∧
    (MouseVaryings.mk ⟨0, 0, 0, 1⟩ 0).lerpStep (MouseVaryings.mk ⟨1, 2, 3, 1⟩ 1) (1/2) =
      ((MouseVaryings.mk ⟨0, 0, 0, 1⟩ 0).lerp (MouseVaryings.mk ⟨1, 2, 3, 1⟩ 1)
        (1/2)).sub (MouseVaryings.mk ⟨0, 0, 0, 1⟩ 0) ∧
    (MouseVaryings.mk ⟨0, 0, 0, 1⟩ 0).addStep
        ((MouseVaryings.mk ⟨0, 0, 0, 1⟩ 0).lerpStep (MouseVaryings.mk ⟨1, 2, 3, 1⟩ 1)
          (1/2)) =
      (MouseVaryings.mk ⟨0, 0, 0, 1⟩ 0).lerp (MouseVaryings.mk ⟨1, 2, 3, 1⟩ 1) (1/2) := by
  have h := c5_lerp_step_linearity (MouseVaryings.mk ⟨0, 0, 0, 1⟩ 0)
    (MouseVaryings.mk ⟨1, 2, 3, 1⟩ 1) (1/2) (by norm_num) (by norm_num)
  exact ⟨by norm_num, by norm_num, h.1, h.2⟩

/-- C6: whenever the winding cross product `(p1-p0) × (p2-p0)` of
`draw_triangles` has a nonzero z component, exactly one of the triangle
`(v0, v1, v2)` and its mirror `(v2, v1, v0)` is culled by the backface test
(`winding.z > 0` culls), so the two are never both rasterized. -/
theorem c6_backface_mirror_exactly_one (p0 p1 p2 : Vec4)
    (h : windingZ p0 p1 p2 ≠ 0) :
    backfaceCulled p0 p1 p2 ↔ ¬ backfaceCulled p2 p1 p0 := by
  have hneg : windingZ p2 p1 p0 = -windingZ p0 p1 p2 := by
    unfold windingZ; ring
  unfold backfaceCulled
  rw [hneg]
  constructor
  · intro hpos
    rw [not_lt]
    linarith
  · intro hnot
    rw [not_lt] at hnot
    rcases h.lt_or_lt with hlt | hgt
    · linarith
    · exact hgt

/-- Witness for C6 at a concrete counter-clockwise triangle. -/
theorem c6_witness :
    windingZ ⟨0, 0, 0, 1⟩ ⟨1, 0, 0, 1⟩ ⟨0, 1, 0, 1⟩ ≠ 0 ∧
    (backfaceCulled ⟨0, 0, 0, 1⟩ ⟨1, 0, 0, 1⟩ ⟨0, 1, 0, 1⟩ ↔
      ¬ backfaceCulled ⟨0, 1, 0, 1⟩ ⟨1, 0, 0, 1⟩ ⟨0, 0, 0, 1⟩) :=
  ⟨by norm_num [windingZ],
   c6_backface_mirror_exactly_one _ _ _ (by norm_num [windingZ])⟩

/-- C7 counterexample: at the homogeneous position `(1, 1, 1, 0)` the
perspective divide of `Varyings::divide_perspective` divides by `w = 0`
(modelled as `none`, the NaN/Inf outcome): there is no epsilon clamp, so the
claim that the divide is guarded at `w = 0` is false. -/
theorem c7_counterexample :
    dividePerspective ⟨1, 1, 1, 0⟩ = none := by
  simp [dividePerspective]

/-- C7 (amended): `divide_perspective` performs an unguarded division of
every component by `w`: the divide is well-defined (finite) exactly when
`w ≠ 0`, and at `w = 0` it is a division by zero (NaN/Inf in `f32`); no
epsilon clamp exists on the rasterization path. -/
theorem c7_divide_unguarded (v : Vec4) :
    (dividePerspective v).isSome ↔ v.w ≠ 0 := by
  unfold dividePerspective
  by_cases h : v.w = 0 <;> simp [h]

/-- C8: `Buffer::get` (and the writes through `Buffer::get_mut`) succeed
exactly when `0 ≤ x < width` and `0 ≤ y < height`; a write at out-of-bounds
coordinates is a silent no-op leaving the buffer unchanged. -/
theorem c8_buffer_bounds {T : Type} (b : Buffer T)
    (hlen : b.data.length = b.width * b.height) (x y : ℤ) :
    ((b.get x y).isSome ↔
      0 ≤ x ∧ x < (b.width : ℤ) ∧ 0 ≤ y ∧ y < (b.height : ℤ)) ∧
    (¬(0 ≤ x ∧ x < (b.width : ℤ) ∧ 0 ≤ y ∧ y < (b.height : ℤ)) →
      ∀ v, b.set x y v = b) := by
  have hidxNone : ¬(0 ≤ x ∧ x < (b.width : ℤ) ∧ 0 ≤ y ∧ y < (b.height : ℤ)) →
      b.index x y = none := by
    intro h
    unfold Buffer.index
    rw [if_pos (by omega)]
  constructor
  · constructor
    · intro hs
      by_contra hc
      unfold Buffer.get at hs
      rw [hidxNone hc] at hs
      simp at hs
    · rintro ⟨hx0, hx, hy0, hy⟩
      exact buffer_get_some_of_bounds b hlen hx0 hx hy0 hy
  · intro hc v
    unfold Buffer.set
    rw [hidxNone hc]

/-- Witness for C8 on a concrete 2×1 boolean buffer at the out-of-bounds
coordinate `(5, 0)`. -/
theorem c8_witness :
    (Buffer.mk 2 1 [true, false]).data.length =
      (Buffer.mk 2 1 [true, false]).width * (Buffer.mk 2 1 [true, false]).height ∧
    (((Buffer.mk 2 1 [true, false]).get 5 0).isSome ↔
      0 ≤ (5 : ℤ) ∧ (5 : ℤ) < ((Buffer.mk 2 1 [true, false]).width : ℤ) ∧
        0 ≤ (0 : ℤ) ∧ (0 : ℤ) < ((Buffer.mk 2 1 [true, false]).height : ℤ)) ∧
    (¬(0 ≤ (5 : ℤ) ∧ (5 : ℤ) < ((Buffer.mk 2 1 [true, false]).width : ℤ) ∧
        0 ≤ (0 : ℤ) ∧ (0 : ℤ) < ((Buffer.mk 2 1 [true, false]).height : ℤ)) →
      ∀ v, (Buffer.mk 2 1 [true, false]).set 5 0 v = Buffer.mk 2 1 [true, false]) := by
  have h := c8_buffer_bounds (Buffer.mk 2 1 [true, false]) rfl 5 0
  exact ⟨rfl, h.1, h.2⟩

/-- C10: in all three rasterization routines (`rasterize_flat_bottom_triangle`,
`rasterize_flat_top_triangle`, `draw_hline`) the skip branch fires only for
`*d < z` strictly, so a fragment whose depth exactly equals the stored depth
passes the test and overwrites both the depth cell and the frame-buffer pixel
— last-write-wins at equal depth. -/
theorem c10_equal_depth_last_write_wins (O : Type) (z : ℚ) (dst c : O) :
    flatBottomPixelStep ((z : ℚ) : DepthVal) dst z c = (((z : ℚ) : DepthVal), c) ∧
    flatTopPixelStep ((z : ℚ) : DepthVal) dst z c = (((z : ℚ) : DepthVal), c) ∧
    hlinePixelStep ((z : ℚ) : DepthVal) dst z c = (((z : ℚ) : DepthVal), c) := by
  refine ⟨?_, ?_, ?_⟩ <;>
    simp [flatBottomPixelStep, flatTopPixelStep, hlinePixelStep]

/-- C9 counterexample: a 1×1 texture (width = height = 1, so the claim's
`width ≥ 1`/`height ≥ 1` premise holds) with `Repeat` wrap panics in
`get_pixel` — `rem_euclid(width - 1)` is a remainder by zero (`none` in the
model) — so `get_normalized_pixel (0, 0)` is not total. -/
theorem c9_counterexample :
    1 ≤ (Texture.mk (Buffer.mk 1 1 [Color.mk 0 0 0 255]) TextureWrap.Repeat
        TextureFilter.Nearest false).buffer.width ∧
    1 ≤ (Texture.mk (Buffer.mk 1 1 [Color.mk 0 0 0 255]) TextureWrap.Repeat
        TextureFilter.Nearest false).buffer.height ∧
    (Texture.mk (Buffer.mk 1 1 [Color.mk 0 0 0 255]) TextureWrap.Repeat
        TextureFilter.Nearest false).getNormalizedPixel 0 0 = none := by
  refine ⟨by norm_num, by norm_num, ?_⟩
  simp [Texture.getNormalizedPixel, Texture.getPixel]

/-- C9 (amended): `get_normalized_pixel` is total — never a panic, the
internal `unwrap` unreachable — for every texture with `width, height ≥ 1`
under `Clamp` wrap, and with `width, height ≥ 2` under `Repeat` wrap (the
`Repeat` path computes `rem_euclid(width - 1)`, which is a remainder by zero
when `width = 1`). -/
theorem c9_texture_lookup_total (t : Texture)
    (hlen : t.buffer.data.length = t.buffer.width * t.buffer.height)
    (hw : 1 ≤ t.buffer.width) (hh : 1 ≤ t.buffer.height)
    (hrep : t.wrap = TextureWrap.Repeat →
      2 ≤ t.buffer.width ∧ 2 ≤ t.buffer.height)
    (x y : ℚ) : (t.getNormalizedPixel x y).isSome := by
  have hpix : ∀ ix iy : ℤ, (t.getPixel ix iy).isSome := by
    intro ix iy
    rcases hwd : t.wrap with _ | _
    · simp only [Texture.getPixel, hwd]
      apply buffer_get_some_of_bounds t.buffer hlen <;> split_ifs <;> omega
    · obtain ⟨hw2, hh2⟩ := hrep hwd
      simp only [Texture.getPixel, hwd]
      rw [if_neg (by push_neg; omega)]
      apply buffer_get_some_of_bounds t.buffer hlen
      · exact Int.emod_nonneg ix (by omega)
      · have := Int.emod_lt_of_pos ix (by omega : 0 < (t.buffer.width : ℤ) - 1)
        omega
      · exact Int.emod_nonneg iy (by omega)
      · have := Int.emod_lt_of_pos iy (by omega : 0 < (t.buffer.height : ℤ) - 1)
        omega
  rcases hf : t.filter with _ | _
  · simp only [Texture.getNormalizedPixel, hf]
    exact hpix _ _
  · simp only [Texture.getNormalizedPixel, hf]
    set xi := ⌊x * (((t.buffer.width : ℤ) - 1 : ℤ) : ℚ)⌋ with hxi
    set yi := ⌊y * (((t.buffer.height : ℤ) - 1 : ℤ) : ℚ)⌋ with hyi
    obtain ⟨tl, htl⟩ := Option.isSome_iff_exists.mp (hpix xi yi)
    obtain ⟨tr, htr⟩ := Option.isSome_iff_exists.mp (hpix (xi + 1) yi)
    obtain ⟨bl, hbl⟩ := Option.isSome_iff_exists.mp (hpix xi (yi + 1))
    obtain ⟨br, hbr⟩ := Option.isSome_iff_exists.mp (hpix (xi + 1) (yi + 1))
    rw [htl, htr, hbl, hbr]
    rfl

/-- Witness for C9 (amended) on a concrete 1×1 `Clamp` texture sampled far
outside the unit UV square. -/
theorem c9_witness :
    (Texture.mk (Buffer.mk 1 1 [Color.mk 1 2 3 255]) TextureWrap.Clamp
        TextureFilter.Bilinear false).buffer.data.length =
      (Texture.mk (Buffer.mk 1 1 [Color.mk 1 2 3 255]) TextureWrap.Clamp
        TextureFilter.Bilinear false).buffer.width *
      (Texture.mk (Buffer.mk 1 1 [Color.mk 1 2 3 255]) TextureWrap.Clamp
        TextureFilter.Bilinear false).buffer.height ∧
    ((Texture.mk (Buffer.mk 1 1 [Color.mk 1 2 3 255]) TextureWrap.Clamp
        TextureFilter.Bilinear false).getNormalizedPixel (7/2) (-2)).isSome := by
  refine ⟨rfl, ?_⟩
  exact c9_texture_lookup_total
    (Texture.mk (Buffer.mk 1 1 [Color.mk 1 2 3 255]) TextureWrap.Clamp
      TextureFilter.Bilinear false) rfl (by norm_num) (by norm_num)
    (fun h => by simp at h) (7/2) (-2)

end Toru
